import Mathlib

/-!
The collectd rate plugin and rate target.

A shallow embedding of `src/rate.c` (write/read plugin that buffers rate
batches in a pending list) and `src/target_rate.c` (filter-chain target that
rewrites a batch in place), followed by theorems about them.

Conventions of the embedding:

* a C pointer that may be `NULL` is an `Option`;
* a C array is a `List`; an access outside the array is undefined behaviour
  and makes the embedded function return `none`;
* the process-wide `rate_list_head` is passed in and returned explicitly;
* the result of the external `uc_get_rate (ds, vl)` is a parameter `rates`.
-/

namespace Collectd

/-! ## Data model (`plugin.h`) -/

/-- A C `double` (`gauge_t`): NaN, an infinity, or the finite value
`mantissa * 2 ^ exponent`. The code under study never does arithmetic on a
`double`; it only tests `isnan`, copies, and converts to an integer type. -/
inductive gauge_t
  | nan
  | inf (negative : Bool)
  | fin (mantissa : Int) (exponent : Int)
  deriving DecidableEq, Repr

/-- The C library test `isnan`. -/
def isnan : gauge_t → Bool
  | .nan => true
  | _ => false

/-- Integral part of a `double`, rounding toward zero; NaN and the infinities
have none. -/
def gauge_t.trunc : gauge_t → Option Int
  | .fin m e => some (if 0 ≤ e then m * 2 ^ e.toNat else Int.tdiv m (2 ^ (-e).toNat))
  | _ => none

/-- The C conversion `(derive_t) g` to a signed 64-bit integer: the integral
part when it is representable, undefined (`none`) otherwise. -/
def to_derive (g : gauge_t) : Option Int :=
  match g.trunc with
  | some t => if -(2 ^ 63) ≤ t ∧ t < 2 ^ 63 then some t else none
  | none => none

/-- The C conversion `(counter_t) g` to an unsigned 64-bit integer: the
integral part when it is representable, undefined (`none`) otherwise. -/
def to_counter (g : gauge_t) : Option Nat :=
  match g.trunc with
  | some t => if 0 ≤ t ∧ t < 2 ^ 64 then some t.toNat else none
  | none => none

/-- The C conversion `(absolute_t) g` to an unsigned 64-bit integer. -/
def to_absolute (g : gauge_t) : Option Nat :=
  match g.trunc with
  | some t => if 0 ≤ t ∧ t < 2 ^ 64 then some t.toNat else none
  | none => none

/-- Modelled from the spec: the value slot `value_t`, a C union declared in
`plugin.h` (absent from the sources) with one member per kind. The
constructor records the member written last; `zero` is the all-bits-zero cell
that `calloc` returns, into which no member has been written. -/
inductive value_t
  | zero
  | counter (c : Nat)
  | gauge (g : gauge_t)
  | derive (d : Int)
  | absolute (a : Nat)
  deriving DecidableEq, Repr

/-- Modelled from the spec: the kind tags `DS_TYPE_*` of `plugin.h` (absent
from the sources), numbered as collectd numbers them; the proofs rely only on
the four being distinct. The field holding them is a C `int`, so a data source
can carry a tag that is none of the four. -/
def DS_TYPE_COUNTER : Int := 0

/-- Modelled from the spec: kind tag of a gauge slot (`plugin.h`). -/
def DS_TYPE_GAUGE : Int := 1

/-- Modelled from the spec: kind tag of a derive slot (`plugin.h`). -/
def DS_TYPE_DERIVE : Int := 2

/-- Modelled from the spec: kind tag of an absolute slot (`plugin.h`). -/
def DS_TYPE_ABSOLUTE : Int := 3

/-- Modelled from the spec: size of the name buffers of a batch
(`DATA_MAX_NAME_LEN` of `plugin.h`, absent from the sources). -/
def DATA_MAX_NAME_LEN : Nat := 64

/-- One slot declaration of a data set (`data_source_t`). -/
structure data_source_t where
  name : String
  type : Int
  deriving DecidableEq, Repr

/-- A data set (`data_set_t`): the type name, the declared slot count and
the array of slot declarations. -/
structure data_set_t where
  type : String
  ds_num : Nat
  ds : List data_source_t
  deriving DecidableEq, Repr

/-- Modelled from the spec: metadata attached to a batch (`meta_data_t` of
`meta_data.h`, absent from the sources), a key/value map. -/
abbrev meta_data_t := List (String × String)

/-- Modelled from the spec: `meta_data_clone`, a deep copy with the same
content as its argument. -/
def meta_data_clone (m : meta_data_t) : meta_data_t := m

/-- An observation batch (`value_list_t`). `values` is the array that the
C field points to; `values_len` is the separate length field. -/
structure value_list_t where
  values : List value_t
  values_len : Nat
  time : Nat
  interval : Nat
  host : String
  plugin : String
  plugin_instance : String
  type : String
  type_instance : String
  meta : Option meta_data_t
  deriving DecidableEq, Repr

/-- The C library `strncpy` into a buffer of `n` bytes, as the string then
found in the buffer. -/
def strncpy (src : String) (n : Nat) : String := String.mk (src.data.take n)

/-- The assignment `a[i] = v`; undefined (`none`) outside the array. -/
def store (a : List value_t) (i : Nat) (v : value_t) : Option (List value_t) :=
  if i < a.length then some (a.set i v) else none

/-! ## `src/rate.c` -/

/-- The table `config_keys` of recognized configuration keys, which has no
entry. -/
def config_keys : List String := []

/-- The count `config_keys_num`, `STATIC_ARRAY_SIZE (config_keys)`. -/
def config_keys_num : Nat := config_keys.length

/-- The configuration callback `rate_config`: the returned status and the
line it logs at INFO level. -/
def rate_config (key : String) (value : String) : Int × String :=
  (0, "rate config: " ++ key ++ "=" ++ value)

/-- Body of the `for` loop of `rate_write` for index `i`: the
`switch (ds->ds->type)` and the assignment to `vrates[i]`. -/
def rate_write_body (ds : data_set_t) (rates : List gauge_t)
    (vrates : List value_t) (i : Nat) : Option (List value_t) :=
  match ds.ds.head? with
  | none => none
  | some d =>
    if d.type = DS_TYPE_GAUGE then
      rates[i]?.bind fun r => store vrates i (value_t.gauge r)
    else if d.type = DS_TYPE_DERIVE then
      rates[i]?.bind fun r => (to_derive r).bind fun x => store vrates i (value_t.derive x)
    else if d.type = DS_TYPE_COUNTER then
      rates[i]?.bind fun r => (to_counter r).bind fun x => store vrates i (value_t.counter x)
    else if d.type = DS_TYPE_ABSOLUTE then
      rates[i]?.bind fun r => (to_absolute r).bind fun x => store vrates i (value_t.absolute x)
    else
      some vrates

/-- The loop `for (i = 0; i < ds->ds_num; i++)` of `rate_write`, with `n`
iterations left and the next index `i` (so `n = ds->ds_num - i`). -/
def rate_write_loop (ds : data_set_t) (rates : List gauge_t) :
    Nat → Nat → List value_t → Option (List value_t)
  | 0, _, vrates => some vrates
  | n + 1, i, vrates =>
    (rate_write_body ds rates vrates i).bind fun v => rate_write_loop ds rates n (i + 1) v

/-- The write callback `rate_write`. `alloc_ok` says whether the three
allocations succeeded, `rates` is what `uc_get_rate (ds, vl)` returns and
`rate_list_head` the pending list on entry. The result is the returned status
and the pending list on exit, or `none` for undefined behaviour. -/
def rate_write (alloc_ok : Bool) (ds : data_set_t) (vl : value_list_t)
    (rates : Option (List gauge_t)) (rate_list_head : List value_list_t) :
    Option (Int × List value_list_t) :=
  if alloc_ok = false then some (-1, rate_list_head)
  else
    let vrates := List.replicate vl.values_len value_t.zero
    let vlcopy : value_list_t :=
      { vl with
        values := vrates
        plugin := strncpy "rate" DATA_MAX_NAME_LEN
        meta := vl.meta.map meta_data_clone }
    match rates with
    | none => some (0, rate_list_head)
    | some r =>
      match r.head? with
      | none => none
      | some r0 =>
        if isnan r0 = false then
          (rate_write_loop ds r ds.ds_num 0 vrates).bind fun v =>
            some (0, { vlcopy with values := v } :: rate_list_head)
        else some (0, rate_list_head)

/-- What `rate_read` does that is visible outside it. -/
inductive event
  | lock
  | unlock
  | dispatch (vl : value_list_t)
  deriving DecidableEq, Repr

/-- The batches handed to `plugin_dispatch_values`, in order. -/
def dispatched : List event → List value_list_t
  | [] => []
  | event.dispatch vl :: es => vl :: dispatched es
  | _ :: es => dispatched es

/-- The loop of `rate_read` over the pending list from `this` on: each entry
is dispatched, then freed, and `success` is incremented. `success` is kept as
a mathematical integer: it starts at 1 and only grows. -/
def rate_read_loop : List value_list_t → Int → List event → Int × List event
  | [], success, evs => (success, evs)
  | this :: next, success, evs => rate_read_loop next (success + 1) (evs ++ [event.dispatch this])

/-- Result of `rate_read`: returned status, the events it performed and the
pending list on exit. -/
structure rate_read_result where
  status : Int
  events : List event
  rate_list_head : List value_list_t
  deriving DecidableEq, Repr

/-- The read callback `rate_read` on the pending list `rate_list_head`. -/
def rate_read (rate_list_head : List value_list_t) : rate_read_result :=
  match rate_list_head with
  | [] => { status := 0, events := [event.lock, event.unlock], rate_list_head := [] }
  | this :: next =>
    let r := rate_read_loop (this :: next) 1 [event.lock]
    { status := if r.1 > 0 then 0 else -1
      events := r.2 ++ [event.unlock]
      rate_list_head := [] }

/-- The pending list when the plugin is loaded: `rate_list_head = NULL`. -/
def rate_list_head_init : List value_list_t := []

/-! ## `src/target_rate.c` -/

/-- Modelled from the spec: the `errno.h` code behind the input-validation
error `-EINVAL` (system header, absent from the sources). -/
def EINVAL : Int := 22

/-- Modelled from the spec: the `errno.h` code behind the
resource-exhaustion error `-ENOMEM` (system header, absent from the
sources). -/
def ENOMEM : Int := 12

/-- Modelled from the spec: the chain-continuation signal of
`filter_chain.h` (absent from the sources). -/
def FC_TARGET_CONTINUE : Int := 0

/-- Modelled from the spec: the chain-stop signal of `filter_chain.h`
(absent from the sources). -/
def FC_TARGET_STOP : Int := 1

/-- The per-target state `struct trate_data_s`, which has no member. -/
structure trate_data_t where
  deriving DecidableEq, Repr

/-- The handle slot `void **user_data`: the outer `Option` is the pointer to
the slot, the inner one the pointer held in the slot. -/
abbrev handle_slot := Option (Option trate_data_t)

/-- The callback `trate_destroy`: the returned status and the handle slot
after the call. The function reads the slot and never writes it. -/
def trate_destroy (user_data : handle_slot) : Int × handle_slot :=
  match user_data with
  | none => (-EINVAL, none)
  | some none => (0, some none)
  | some (some data) => (0, some (some data))

/-- The callback `trate_create`: `malloc_ok` says whether `malloc`
succeeded. The result is the returned status and the handle slot after the
call; storing through a null `user_data` is undefined (`none`). -/
def trate_create (malloc_ok : Bool) (user_data : handle_slot) : Option (Int × handle_slot) :=
  if malloc_ok = false then some (-ENOMEM, user_data)
  else
    let data : trate_data_t := {}
    let status : Int := 0
    if status ≠ 0 then some (status, user_data)
    else
      match user_data with
      | none => none
      | some _ => some (0, some (some data))

/-- Body of the `for` loop of `trate_invoke` for index `i`: the
`switch (ds->ds->type)`, the assignment to `vl->values[i]` and, in the
default case, the assignment to `status`. -/
def trate_invoke_body (ds : data_set_t) (rates : List gauge_t)
    (values : List value_t) (status : Int) (i : Nat) : Option (List value_t × Int) :=
  match ds.ds.head? with
  | none => none
  | some d =>
    if d.type = DS_TYPE_GAUGE then
      rates[i]?.bind fun r =>
        (store values i (value_t.gauge r)).map fun v => (v, status)
    else if d.type = DS_TYPE_DERIVE then
      rates[i]?.bind fun r => (to_derive r).bind fun x =>
        (store values i (value_t.derive x)).map fun v => (v, status)
    else if d.type = DS_TYPE_COUNTER then
      rates[i]?.bind fun r => (to_counter r).bind fun x =>
        (store values i (value_t.counter x)).map fun v => (v, status)
    else if d.type = DS_TYPE_ABSOLUTE then
      rates[i]?.bind fun r => (to_absolute r).bind fun x =>
        (store values i (value_t.absolute x)).map fun v => (v, status)
    else
      some (values, FC_TARGET_STOP)

/-- The loop `for (i = 0; i < ds->ds_num; i++)` of `trate_invoke`, with `n`
iterations left and the next index `i`. -/
def trate_invoke_loop (ds : data_set_t) (rates : List gauge_t) :
    Nat → Nat → List value_t → Int → Option (List value_t × Int)
  | 0, _, values, status => some (values, status)
  | n + 1, i, values, status =>
    (trate_invoke_body ds rates values status i).bind fun r =>
      trate_invoke_loop ds rates n (i + 1) r.1 r.2

/-- The callback `trate_invoke`. `rates` is what `uc_get_rate (ds, vl)`
returns when it is called. The result is the returned status and the batch
behind `vl` after the call, or `none` for undefined behaviour. -/
def trate_invoke (ds : Option data_set_t) (vl : Option value_list_t)
    (user_data : handle_slot) (rates : Option (List gauge_t)) :
    Option (Int × Option value_list_t) :=
  match ds, vl, user_data with
  | none, _, _ => some (-EINVAL, vl)
  | _, none, _ => some (-EINVAL, vl)
  | _, _, none => some (-EINVAL, vl)
  | some _, some _, some none => some (-EINVAL, vl)
  | some ds, some vl, some (some _) =>
    match rates with
    | none => some (FC_TARGET_STOP, some vl)
    | some r =>
      match r.head? with
      | none => none
      | some r0 =>
        if isnan r0 = false then
          (trate_invoke_loop ds r ds.ds_num 0 vl.values FC_TARGET_CONTINUE).bind fun res =>
            some (res.2, some { vl with values := res.1 })
        else some (FC_TARGET_STOP, some vl)

/-! ## Terms used to state the properties -/

/-- The kind tag the two transforms switch on, `ds->ds->type`. -/
def kind (ds : data_set_t) : Option Int := ds.ds.head?.map fun d => d.type

/-- The tag is one of gauge, counter, derive, absolute. -/
def supported (t : Int) : Bool :=
  t = DS_TYPE_GAUGE || t = DS_TYPE_DERIVE || t = DS_TYPE_COUNTER || t = DS_TYPE_ABSOLUTE

/-- The history store returned a rate array whose first element is not NaN. -/
def usable (rates : Option (List gauge_t)) : Bool :=
  match rates with
  | some (r0 :: _) => !(isnan r0)
  | _ => false

/-- The slot content that the specification asks for a slot of kind `t` and
rate `g`: the rate itself for a gauge, the rate converted to the integer type
for a counter, derive or absolute slot. -/
def spec_slot (t : Int) (g : gauge_t) : Option value_t :=
  if t = DS_TYPE_GAUGE then some (value_t.gauge g)
  else if t = DS_TYPE_DERIVE then (to_derive g).map value_t.derive
  else if t = DS_TYPE_COUNTER then (to_counter g).map value_t.counter
  else if t = DS_TYPE_ABSOLUTE then (to_absolute g).map value_t.absolute
  else none

/-- The conversion of `g` that the transforms perform for tag `t` is defined
in C. -/
def convertible (t : Int) (g : gauge_t) : Bool :=
  if t = DS_TYPE_DERIVE then (to_derive g).isSome
  else if t = DS_TYPE_COUNTER then (to_counter g).isSome
  else if t = DS_TYPE_ABSOLUTE then (to_absolute g).isSome
  else true

/-- The contract between data set, batch and rate array: at least one slot,
the same slot count everywhere, and every rate convertible for the data-set
kind. -/
def well_formed (ds : data_set_t) (vl : value_list_t) (r : List gauge_t) : Prop :=
  1 ≤ ds.ds_num ∧ ds.ds.length = ds.ds_num ∧ vl.values.length = vl.values_len ∧
  vl.values_len = ds.ds_num ∧ r.length = ds.ds_num ∧
  ∀ d ∈ ds.ds.head?, ∀ g ∈ r, convertible d.type g = true

/-- The history-store result is one on which the transforms have defined
behaviour: no array, or a non-empty array that obeys the contract whenever
its first element is not NaN. -/
def defined_input (ds : data_set_t) (vl : value_list_t) (rates : Option (List gauge_t)) : Prop :=
  match rates with
  | none => True
  | some r => r ≠ [] ∧ (usable (some r) = true → well_formed ds vl r)

/-- For each dispatch event of a trace, in order, whether `rate_list_lock`
is held when the event occurs; `held` says whether the lock is held where the
trace starts. -/
def lock_held_at_dispatch : Bool → List event → List Bool
  | _, [] => []
  | _, event.lock :: es => lock_held_at_dispatch true es
  | _, event.unlock :: es => lock_held_at_dispatch false es
  | held, event.dispatch _ :: es => held :: lock_held_at_dispatch held es

/-- One call made by the host's scheduler on the rate plugin. -/
inductive rate_op
  | write (alloc_ok : Bool) (ds : data_set_t) (vl : value_list_t) (rates : Option (List gauge_t))
  | read

/-- State of a run of the rate plugin: the pending list and a ledger of what
the calls did so far. `queued` lists the entries that `rate_write` calls put
on the pending list, in arrival order; `forwarded` the batches that
`rate_read` calls dispatched, in order; `write_ok` counts the `rate_write`
calls that returned 0. -/
structure run_state where
  rate_list_head : List value_list_t
  queued : List value_list_t
  forwarded : List value_list_t
  write_ok : Nat
  deriving DecidableEq, Repr

/-- The state when the plugin is loaded. -/
def run_init : run_state :=
  { rate_list_head := rate_list_head_init, queued := [], forwarded := [], write_ok := 0 }

/-- One call, each call atomic with respect to the pending list. -/
def run_step (s : run_state) : rate_op → Option run_state
  | rate_op.write alloc_ok ds vl rates =>
    (rate_write alloc_ok ds vl rates s.rate_list_head).map fun (r : Int × List value_list_t) =>
      { s with
        rate_list_head := r.2
        queued := s.queued ++ List.take (r.2.length - s.rate_list_head.length) r.2
        write_ok := if r.1 = (0 : Int) then s.write_ok + 1 else s.write_ok }
  | rate_op.read =>
    let r := rate_read s.rate_list_head
    some { s with
           rate_list_head := r.rate_list_head
           forwarded := s.forwarded ++ dispatched r.events }

/-- A sequence of calls, left to right. -/
def run : run_state → List rate_op → Option run_state
  | s, [] => some s
  | s, op :: ops => (run_step s op).bind fun s1 => run s1 ops

instance (ds : data_set_t) (vl : value_list_t) (r : List gauge_t) :
    Decidable (well_formed ds vl r) := by
  unfold well_formed; infer_instance

instance (ds : data_set_t) (vl : value_list_t) (rates : Option (List gauge_t)) :
    Decidable (defined_input ds vl rates) := by
  unfold defined_input; cases rates <;> infer_instance

/-- The call is one on which the plugin has defined behaviour. -/
def rate_op.defined : rate_op → Prop
  | rate_op.write alloc_ok ds vl rates => alloc_ok = true → defined_input ds vl rates
  | rate_op.read => True

instance (op : rate_op) : Decidable op.defined := by
  cases op <;> unfold rate_op.defined <;> infer_instance

/-- The call is a `rate_write` whose allocations succeed and whose rate array
is usable. -/
def rate_op.accepts : rate_op → Bool
  | rate_op.write alloc_ok _ _ rates => alloc_ok && usable rates
  | rate_op.read => false

/-- The call is a `rate_write`. -/
def rate_op.is_write : rate_op → Bool
  | rate_op.write _ _ _ _ => true
  | rate_op.read => false

/-- The status a `trate_invoke` loop iteration leaves in `status`. -/
def status_after (ds : data_set_t) (status : Int) : Int :=
  match ds.ds.head? with
  | some d => if supported d.type = true then status else FC_TARGET_STOP
  | none => status

/-! ## Sample inputs -/

/-- A one-slot batch of series `host1/cpuX`, value 150 at time 10. -/
def cpu_batch : value_list_t :=
  { values := [value_t.counter 150], values_len := 1, time := 10, interval := 10,
    host := "host1", plugin := "cpu", plugin_instance := "0", type := "cpuX",
    type_instance := "", meta := none }

/-- A one-slot counter data set. -/
def counter_ds : data_set_t :=
  { type := "cpuX", ds_num := 1, ds := [{ name := "value", type := DS_TYPE_COUNTER }] }

/-- A one-slot data set whose kind tag is none of the four. -/
def bad_ds : data_set_t :=
  { type := "cpuX", ds_num := 1, ds := [{ name := "value", type := 7 }] }

/-- A two-slot data set with a gauge slot followed by a counter slot. -/
def mixed_ds : data_set_t :=
  { type := "io", ds_num := 2,
    ds := [{ name := "load", type := DS_TYPE_GAUGE }, { name := "ops", type := DS_TYPE_COUNTER }] }

/-- A two-slot batch for `mixed_ds`. -/
def mixed_batch : value_list_t :=
  { values := [value_t.gauge (gauge_t.fin 7 0), value_t.counter 40], values_len := 2,
    time := 10, interval := 10, host := "host1", plugin := "disk", plugin_instance := "sda",
    type := "io", type_instance := "", meta := none }

/-- The rate 5.0. -/
def rate_5 : gauge_t := gauge_t.fin 5 0

/-- A run of calls: an accepted write, a write for which the history store
has no rate, a read, and another accepted write. -/
def sample_ops : List rate_op :=
  [rate_op.write true counter_ds cpu_batch (some [rate_5]),
   rate_op.write true counter_ds cpu_batch none,
   rate_op.read,
   rate_op.write true mixed_ds mixed_batch (some [gauge_t.fin 3 (-1), gauge_t.fin 5 (-1)])]

/-- A run of `rate_write` calls only: two accepted writes around one for
which the history store has no rate. -/
def sample_writes : List rate_op :=
  [rate_op.write true counter_ds cpu_batch (some [rate_5]),
   rate_op.write true counter_ds cpu_batch none,
   rate_op.write true mixed_ds mixed_batch (some [gauge_t.fin 3 (-1), gauge_t.fin 5 (-1)])]

/-! ## Lemmas on the loops -/

theorem store_eq_some {a : List value_t} {i : Nat} {v : value_t} {a1 : List value_t}
    (h : store a i v = some a1) : i < a.length ∧ a1 = a.set i v := by
  unfold store at h
  split at h
  · exact ⟨by assumption, by simpa using h.symm⟩
  · simp at h

/-- The `switch` of `rate_write` writes the slot content of the specification
for the data-set kind, and nothing for an unsupported kind. -/
theorem rate_write_body_eq (ds : data_set_t) (r : List gauge_t) (v : List value_t) (i : Nat) :
    rate_write_body ds r v i =
      match ds.ds.head? with
      | none => none
      | some d =>
        if supported d.type = true then
          r[i]?.bind fun g => (spec_slot d.type g).bind fun x => store v i x
        else some v := by
  unfold rate_write_body
  cases ds.ds.head? with
  | none => rfl
  | some d =>
    simp only
    by_cases h1 : d.type = DS_TYPE_GAUGE
    · simp [h1, supported, spec_slot]
    by_cases h2 : d.type = DS_TYPE_DERIVE
    · simp [h2, supported, spec_slot, DS_TYPE_DERIVE, DS_TYPE_GAUGE, Option.bind_map]
    by_cases h3 : d.type = DS_TYPE_COUNTER
    · simp [h3, supported, spec_slot, DS_TYPE_DERIVE, DS_TYPE_GAUGE, DS_TYPE_COUNTER,
        Option.bind_map]
    by_cases h4 : d.type = DS_TYPE_ABSOLUTE
    · simp [h4, supported, spec_slot, DS_TYPE_DERIVE, DS_TYPE_GAUGE, DS_TYPE_COUNTER,
        DS_TYPE_ABSOLUTE, Option.bind_map]
    · simp [h1, h2, h3, h4, supported]

/-- What one iteration of the `rate_write` loop does to the array. -/
theorem rate_write_body_spec {ds : data_set_t} {r : List gauge_t} {v v1 : List value_t}
    {i : Nat} {d0 : data_source_t} (hd : ds.ds.head? = some d0)
    (h : rate_write_body ds r v i = some v1) :
    v1.length = v.length ∧ (∀ j, j ≠ i → v1[j]? = v[j]?) ∧
    (supported d0.type = true →
      ∃ g x, r[i]? = some g ∧ spec_slot d0.type g = some x ∧ v1[i]? = some x) ∧
    (supported d0.type = false → v1 = v) := by
  rw [rate_write_body_eq, hd] at h
  simp only at h
  by_cases hs : supported d0.type = true
  · rw [if_pos hs] at h
    obtain ⟨g, hg, h⟩ := Option.bind_eq_some.mp h
    obtain ⟨x, hx, h⟩ := Option.bind_eq_some.mp h
    obtain ⟨hi, rfl⟩ := store_eq_some h
    refine ⟨by simp, ?_, ?_, ?_⟩
    · intro j hj
      simp [List.getElem?_set, Ne.symm hj]
    · intro _
      exact ⟨g, x, hg, hx, by simp [List.getElem?_set, hi]⟩
    · intro hf; simp [hs] at hf
  · rw [if_neg hs] at h
    have : v1 = v := by simpa using h.symm
    subst this
    refine ⟨rfl, fun _ _ => rfl, fun h => absurd h hs, fun _ => rfl⟩

/-- What the `rate_write` loop does to the array: it touches only the slots
`i .. i + n - 1` and writes each in the kind of the data set. -/
theorem rate_write_loop_spec {ds : data_set_t} {r : List gauge_t} {d0 : data_source_t}
    (hd : ds.ds.head? = some d0) :
    ∀ (n i : Nat) (v v1 : List value_t), rate_write_loop ds r n i v = some v1 →
      v1.length = v.length ∧ (∀ j, (j < i ∨ i + n ≤ j) → v1[j]? = v[j]?) ∧
      (supported d0.type = true → ∀ j, i ≤ j → j < i + n →
        ∃ g x, r[j]? = some g ∧ spec_slot d0.type g = some x ∧ v1[j]? = some x) ∧
      (supported d0.type = false → v1 = v)
  | 0, i, v, v1, h => by
    simp only [rate_write_loop, Option.some.injEq] at h
    subst h
    exact ⟨rfl, fun _ _ => rfl, fun _ j h1 h2 => by omega, fun _ => rfl⟩
  | n + 1, i, v, v1, h => by
    simp only [rate_write_loop] at h
    obtain ⟨v2, hb, hl⟩ := Option.bind_eq_some.mp h
    obtain ⟨b1, b2, b3, b4⟩ := rate_write_body_spec hd hb
    obtain ⟨l1, l2, l3, l4⟩ := rate_write_loop_spec hd n (i + 1) v2 v1 hl
    refine ⟨l1.trans b1, ?_, ?_, ?_⟩
    · intro j hj
      rw [l2 j (by omega), b2 j (by omega)]
    · intro hs j h1 h2
      by_cases hji : j = i
      · subst hji
        obtain ⟨g, x, hg, hx, hv⟩ := b3 hs
        exact ⟨g, x, hg, hx, by rw [l2 j (by omega), hv]⟩
      · exact l3 hs j (by omega) (by omega)
    · intro hs
      rw [l4 hs, b4 hs]

theorem spec_slot_defined {t : Int} {g : gauge_t} (hs : supported t = true)
    (hc : convertible t g = true) : ∃ x, spec_slot t g = some x := by
  unfold spec_slot
  unfold convertible at hc
  unfold supported at hs
  by_cases h1 : t = DS_TYPE_GAUGE
  · simp [h1]
  by_cases h2 : t = DS_TYPE_DERIVE
  · simp only [h2, if_true] at hc
    obtain ⟨y, hy⟩ := Option.isSome_iff_exists.mp hc
    simp [h2, DS_TYPE_DERIVE, DS_TYPE_GAUGE, hy]
  by_cases h3 : t = DS_TYPE_COUNTER
  · simp only [h3, if_true] at hc
    simp only [DS_TYPE_DERIVE, DS_TYPE_COUNTER] at hc
    simp only [show ¬ ((0 : Int) = 2) by decide, if_false] at hc
    obtain ⟨y, hy⟩ := Option.isSome_iff_exists.mp hc
    simp [h3, DS_TYPE_DERIVE, DS_TYPE_GAUGE, DS_TYPE_COUNTER, hy]
  by_cases h4 : t = DS_TYPE_ABSOLUTE
  · simp only [h4, if_true] at hc
    simp only [DS_TYPE_DERIVE, DS_TYPE_COUNTER, DS_TYPE_ABSOLUTE] at hc
    simp only [show ¬ ((3 : Int) = 2) by decide, show ¬ ((3 : Int) = 0) by decide,
      if_false, if_true] at hc
    obtain ⟨y, hy⟩ := Option.isSome_iff_exists.mp hc
    simp [h4, DS_TYPE_DERIVE, DS_TYPE_GAUGE, DS_TYPE_COUNTER, DS_TYPE_ABSOLUTE, hy]
  · simp [h1, h2, h3, h4] at hs

/-- The `rate_write` loop has defined behaviour when its indices stay inside
both arrays and every rate converts. -/
theorem rate_write_loop_defined {ds : data_set_t} {r : List gauge_t} {d0 : data_source_t}
    (hd : ds.ds.head? = some d0) (hc : ∀ g ∈ r, convertible d0.type g = true) :
    ∀ (n i : Nat) (v : List value_t), i + n ≤ v.length → i + n ≤ r.length →
      ∃ v1, rate_write_loop ds r n i v = some v1
  | 0, _, v, _, _ => ⟨v, rfl⟩
  | n + 1, i, v, hv, hr => by
    have hb : ∃ v2, rate_write_body ds r v i = some v2 ∧ v2.length = v.length := by
      rw [rate_write_body_eq, hd]
      simp only
      by_cases hs : supported d0.type = true
      · rw [if_pos hs]
        have hi : i < r.length := by omega
        obtain ⟨x, hx⟩ := spec_slot_defined hs (hc r[i] (List.getElem_mem hi))
        refine ⟨v.set i x, ?_, by simp⟩
        simp [List.getElem?_eq_getElem hi, hx, store, show i < v.length by omega]
      · rw [if_neg hs]; exact ⟨v, rfl, rfl⟩
    obtain ⟨v2, hb2, hlen⟩ := hb
    obtain ⟨v1, h1⟩ := rate_write_loop_defined hd hc n (i + 1) v2 (by omega) (by omega)
    exact ⟨v1, by simp [rate_write_loop, hb2, h1]⟩

/-- An iteration of the `trate_invoke` loop is an iteration of the
`rate_write` loop on `vl->values`, plus the update of `status`. -/
theorem trate_invoke_body_eq (ds : data_set_t) (r : List gauge_t) (v : List value_t)
    (st : Int) (i : Nat) :
    trate_invoke_body ds r v st i =
      (rate_write_body ds r v i).map fun v1 => (v1, status_after ds st) := by
  unfold trate_invoke_body rate_write_body status_after
  cases ds.ds.head? with
  | none => rfl
  | some d =>
    simp only
    by_cases h1 : d.type = DS_TYPE_GAUGE
    · simp [h1, supported, Option.map_bind]
    by_cases h2 : d.type = DS_TYPE_DERIVE
    · simp [h2, supported, DS_TYPE_DERIVE, DS_TYPE_GAUGE, Option.map_bind]
    by_cases h3 : d.type = DS_TYPE_COUNTER
    · simp [h3, supported, DS_TYPE_DERIVE, DS_TYPE_GAUGE, DS_TYPE_COUNTER, Option.map_bind]
    by_cases h4 : d.type = DS_TYPE_ABSOLUTE
    · simp [h4, supported, DS_TYPE_DERIVE, DS_TYPE_GAUGE, DS_TYPE_COUNTER, DS_TYPE_ABSOLUTE,
        Option.map_bind]
    · simp [h1, h2, h3, h4, supported]

theorem status_after_idem (ds : data_set_t) (st : Int) :
    status_after ds (status_after ds st) = status_after ds st := by
  unfold status_after
  cases ds.ds.head? with
  | none => rfl
  | some d => by_cases h : supported d.type = true <;> simp [h]

/-- The `trate_invoke` loop is the `rate_write` loop run on `vl->values`,
plus the update of `status`. -/
theorem trate_invoke_loop_eq (ds : data_set_t) (r : List gauge_t) :
    ∀ (n i : Nat) (v : List value_t) (st : Int),
      trate_invoke_loop ds r n i v st =
        (rate_write_loop ds r n i v).map fun v1 =>
          (v1, if n = 0 then st else status_after ds st)
  | 0, _, _, _ => rfl
  | n + 1, i, v, st => by
    simp only [trate_invoke_loop, rate_write_loop, trate_invoke_body_eq]
    cases hb : rate_write_body ds r v i with
    | none => rfl
    | some v2 =>
      simp only [Option.map_some', Option.some_bind]
      rw [trate_invoke_loop_eq ds r n (i + 1) v2 (status_after ds st)]
      cases n with
      | zero => simp
      | succ m => simp [status_after_idem]

/-! ## Lemmas on `rate_write` and `rate_read` -/

theorem strncpy_rate : strncpy "rate" DATA_MAX_NAME_LEN = "rate" := by decide

/-- The two ways `rate_write` can end: the pending list is untouched, or one
entry built from `vl` and the loop result is put in front of it. -/
theorem rate_write_cases {alloc_ok : Bool} {ds : data_set_t} {vl : value_list_t}
    {rates : Option (List gauge_t)} {L L2 : List value_list_t} {st : Int}
    (h : rate_write alloc_ok ds vl rates L = some (st, L2)) :
    (L2 = L ∧ (alloc_ok && usable rates) = false ∧ st = if alloc_ok = true then 0 else -1) ∨
    (alloc_ok = true ∧ usable rates = true ∧ st = 0 ∧
      ∃ r v, rates = some r ∧
        rate_write_loop ds r ds.ds_num 0 (List.replicate vl.values_len value_t.zero) = some v ∧
        L2 = { vl with values := v, plugin := "rate", meta := vl.meta.map meta_data_clone } :: L) := by
  unfold rate_write at h
  cases alloc_ok with
  | false =>
    left
    simp at h
    simp [h.1, h.2]
  | true =>
    simp only [Bool.true_eq_false, if_false] at h
    cases rates with
    | none =>
      left
      simp at h
      simp [h.1, h.2, usable]
    | some r =>
      cases r with
      | nil => simp at h
      | cons r0 rest =>
        simp only [List.head?_cons] at h
        by_cases hn : isnan r0 = false
        · right
          rw [if_pos hn] at h
          obtain ⟨v, hv, he⟩ := Option.bind_eq_some.mp h
          simp only [Option.some.injEq, Prod.mk.injEq] at he
          refine ⟨rfl, by simp [usable, hn], he.1.symm, r0 :: rest, v, rfl, hv, ?_⟩
          rw [← he.2, strncpy_rate]
        · left
          rw [if_neg hn] at h
          simp only [Option.some.injEq, Prod.mk.injEq] at h
          simp at hn
          simp [h.1, h.2, usable, hn]

/-- The write callback has defined behaviour on inputs that obey the contract. -/
theorem rate_write_defined (alloc_ok : Bool) (ds : data_set_t) (vl : value_list_t)
    (rates : Option (List gauge_t)) (L : List value_list_t)
    (hdef : alloc_ok = true → defined_input ds vl rates) :
    ∃ res, rate_write alloc_ok ds vl rates L = some res := by
  unfold rate_write
  cases alloc_ok with
  | false => simp
  | true =>
    simp only [Bool.true_eq_false, if_false]
    have hdef := hdef rfl
    cases rates with
    | none => simp
    | some r =>
      cases r with
      | nil => simp [defined_input] at hdef
      | cons r0 rest =>
        simp only [List.head?_cons]
        by_cases hn : isnan r0 = false
        · rw [if_pos hn]
          obtain ⟨h1, h2, h3, h4, h5, h6⟩ := hdef.2 (by simp [usable, hn])
          cases hds : ds.ds.head? with
          | none =>
            have : ds.ds = [] := by simpa using hds
            rw [this] at h2
            simp at h2
            omega
          | some d0 =>
            obtain ⟨v1, hv1⟩ := rate_write_loop_defined hds (h6 d0 (by simp [hds]))
              ds.ds_num 0 (List.replicate vl.values_len value_t.zero) (by simp; omega)
              (by omega)
            simp [hv1]
        · rw [if_neg hn]; simp

theorem rate_read_loop_eq :
    ∀ (L : List value_list_t) (success : Int) (evs : List event),
      rate_read_loop L success evs = (success + L.length, evs ++ L.map event.dispatch)
  | [], success, evs => by simp [rate_read_loop]
  | this :: next, success, evs => by
    rw [rate_read_loop, rate_read_loop_eq next]
    simp
    omega

theorem dispatched_append (a b : List event) :
    dispatched (a ++ b) = dispatched a ++ dispatched b := by
  induction a with
  | nil => rfl
  | cons e es ih => cases e <;> simp [dispatched, ih]

theorem dispatched_map (L : List value_list_t) : dispatched (L.map event.dispatch) = L := by
  induction L with
  | nil => rfl
  | cons x xs ih => simp [dispatched, ih]

/-- The read callback on any pending list: status 0, the batches of the list
dispatched head first between one lock and one unlock, and an empty list. -/
theorem rate_read_eq (L : List value_list_t) :
    rate_read L =
      { status := 0
        events := [event.lock] ++ L.map event.dispatch ++ [event.unlock]
        rate_list_head := [] } := by
  cases L with
  | nil => rfl
  | cons this next =>
    simp only [rate_read, rate_read_loop_eq]
    have hpos : (1 : Int) + ((this :: next).length : Int) > 0 := by
      have : (0 : Int) ≤ ((this :: next).length : Int) := Int.ofNat_nonneg _
      omega
    rw [if_pos hpos]

/-! ## The rate transform -/

/-- C1 (code defect): on the two-slot data set `mixed_ds` (a gauge slot, then
a counter slot) with the rates 1.5 and 2.5, `rate_write` and `trate_invoke`
both write slot 1 as the gauge 2.5, because they switch on `ds->ds->type`, the
kind of slot 0, for every index; the kind of slot 1 itself is counter, for
which the slot content asked for is the counter 2. -/
theorem dispatch_uses_kind_of_first_slot :
    rate_write true mixed_ds mixed_batch (some [gauge_t.fin 3 (-1), gauge_t.fin 5 (-1)]) [] =
      some (0, [{ mixed_batch with
                  values := [value_t.gauge (gauge_t.fin 3 (-1)), value_t.gauge (gauge_t.fin 5 (-1))]
                  plugin := "rate" }]) ∧
    trate_invoke (some mixed_ds) (some mixed_batch) (some (some {}))
        (some [gauge_t.fin 3 (-1), gauge_t.fin 5 (-1)]) =
      some (FC_TARGET_CONTINUE,
        some { mixed_batch with
               values := [value_t.gauge (gauge_t.fin 3 (-1)), value_t.gauge (gauge_t.fin 5 (-1))] }) ∧
    mixed_ds.ds[1]?.map (fun d => d.type) = some DS_TYPE_COUNTER ∧
    spec_slot DS_TYPE_COUNTER (gauge_t.fin 5 (-1)) = some (value_t.counter 2) := by
  decide

/-- C2 (as stated, refuted): for the one-slot counter series whose rate is
5.0, the entry that `rate_write` puts on the pending list holds the counter 5
in its slot, which is not the gauge 5.0. -/
theorem push_output_slot_is_not_gauge :
    rate_write true counter_ds cpu_batch (some [rate_5]) [] =
      some (0, [{ cpu_batch with values := [value_t.counter 5], plugin := "rate" }]) ∧
    value_t.counter 5 ≠ value_t.gauge rate_5 := by
  decide

/-- C2 (amended): whenever `rate_write` puts an entry on the pending list,
the history store returned an array `r`, and every slot `i < ds_num` whose
kind is supported and is the data-set kind `ds->ds->type` holds `r[i]` in that
kind in the entry: `r[i]` itself for a gauge, `r[i]` truncated toward zero to
the integer type for a counter, derive or absolute slot. -/
theorem rate_write_slot_kind (alloc_ok : Bool) (ds : data_set_t) (vl : value_list_t)
    (rates : Option (List gauge_t)) (L L2 : List value_list_t) (st : Int)
    (h : rate_write alloc_ok ds vl rates L = some (st, L2)) (hne : L2 ≠ L) :
    ∃ e r, L2 = e :: L ∧ rates = some r ∧
      ∀ i d, i < ds.ds_num → ds.ds[i]? = some d → kind ds = some d.type →
        supported d.type = true →
        ∃ g x, r[i]? = some g ∧ spec_slot d.type g = some x ∧ e.values[i]? = some x := by
  rcases rate_write_cases h with ⟨h1, _, _⟩ | ⟨_, _, _, r, v, hr, hv, h2⟩
  · exact absurd h1 hne
  · refine ⟨_, r, h2, hr, ?_⟩
    intro i d hi _ hk hs
    unfold kind at hk
    cases hd : ds.ds.head? with
    | none => simp [hd] at hk
    | some d0 =>
      simp only [hd, Option.map_some', Option.some.injEq] at hk
      obtain ⟨_, _, l3, _⟩ := rate_write_loop_spec hd ds.ds_num 0 _ v hv
      rw [← hk]
      rw [← hk] at hs
      exact l3 hs i (Nat.zero_le i) (by omega)

/-- C2 (amended), at the one-slot counter series with rate 5.0: the entry's
slot is the counter 5. -/
theorem rate_write_slot_kind_witness :
    rate_write true counter_ds cpu_batch (some [rate_5]) [] =
      some (0, [{ cpu_batch with values := [value_t.counter 5], plugin := "rate" }]) ∧
    [{ cpu_batch with values := [value_t.counter 5], plugin := "rate" }] ≠ [] ∧
    ∃ e r, [{ cpu_batch with values := [value_t.counter 5], plugin := "rate" }] = e :: [] ∧
      some [rate_5] = some r ∧
      ∀ i d, i < counter_ds.ds_num → counter_ds.ds[i]? = some d →
        kind counter_ds = some d.type → supported d.type = true →
        ∃ g x, r[i]? = some g ∧ spec_slot d.type g = some x ∧ e.values[i]? = some x :=
  ⟨by decide, by decide,
    rate_write_slot_kind true counter_ds cpu_batch (some [rate_5]) [] _ 0 (by decide) (by decide)⟩

/-- C3: when the history store returns no rate array, or an array whose first
element is NaN, `rate_write` returns with the pending list exactly as it found
it: no entry, in particular no zero-valued one, is added. -/
theorem rate_write_no_rate (alloc_ok : Bool) (ds : data_set_t) (vl : value_list_t)
    (rates : Option (List gauge_t)) (L : List value_list_t)
    (h : rates = none ∨ ∃ rest, rates = some (gauge_t.nan :: rest)) :
    rate_write alloc_ok ds vl rates L = some (if alloc_ok = true then 0 else -1, L) := by
  rcases h with rfl | ⟨rest, rfl⟩ <;> cases alloc_ok <;> simp [rate_write, isnan]

/-- C3, at a first observation whose rate array starts with NaN and a pending
list that already holds one entry. -/
theorem rate_write_no_rate_witness :
    (some [gauge_t.nan] = none ∨ ∃ rest, some [gauge_t.nan] = some (gauge_t.nan :: rest)) ∧
    rate_write true counter_ds cpu_batch (some [gauge_t.nan]) [mixed_batch] =
      some (if true = true then 0 else -1, [mixed_batch]) :=
  ⟨Or.inr ⟨[], rfl⟩,
    rate_write_no_rate true counter_ds cpu_batch (some [gauge_t.nan]) [mixed_batch]
      (Or.inr ⟨[], rfl⟩)⟩

/-- C4 (code defect): for the data set `bad_ds`, whose kind tag 7 is none of
gauge, counter, derive, absolute, and the usable rate array [5.0],
`rate_write` returns 0 and puts an entry with a zero slot on the empty pending
list, where a failure status and an unchanged list are asked for; on the same
input the sibling `trate_invoke` does signal the failure (FC_TARGET_STOP) and
leaves the batch alone. -/
theorem rate_write_emits_on_unsupported_kind :
    kind bad_ds = some 7 ∧ supported 7 = false ∧ usable (some [rate_5]) = true ∧
    rate_write true bad_ds cpu_batch (some [rate_5]) [] =
      some (0, [{ cpu_batch with values := [value_t.zero], plugin := "rate" }]) ∧
    trate_invoke (some bad_ds) (some cpu_batch) (some (some {})) (some [rate_5]) =
      some (FC_TARGET_STOP, some cpu_batch) := by
  decide

/-- C5: whenever `rate_write` puts an entry on the pending list, the entry's
batch has plugin "rate" and the host, plugin_instance, type, type_instance,
time, interval and values_len of the input batch, and the entries that were
pending before follow it unchanged. -/
theorem rate_write_preserves_identity (alloc_ok : Bool) (ds : data_set_t) (vl : value_list_t)
    (rates : Option (List gauge_t)) (L L2 : List value_list_t) (st : Int)
    (h : rate_write alloc_ok ds vl rates L = some (st, L2)) (hne : L2 ≠ L) :
    ∃ e, L2 = e :: L ∧ e.plugin = "rate" ∧ e.host = vl.host ∧
      e.plugin_instance = vl.plugin_instance ∧ e.type = vl.type ∧
      e.type_instance = vl.type_instance ∧ e.time = vl.time ∧ e.interval = vl.interval ∧
      e.values_len = vl.values_len := by
  rcases rate_write_cases h with ⟨h1, _, _⟩ | ⟨_, _, _, r, v, _, _, h2⟩
  · exact absurd h1 hne
  · exact ⟨_, h2, rfl, rfl, rfl, rfl, rfl, rfl, rfl, rfl⟩

/-- C5, at the one-slot counter series with rate 5.0 and a pending list that
already holds one entry. -/
theorem rate_write_preserves_identity_witness :
    rate_write true counter_ds cpu_batch (some [rate_5]) [mixed_batch] =
      some (0, [{ cpu_batch with values := [value_t.counter 5], plugin := "rate" }, mixed_batch]) ∧
    [{ cpu_batch with values := [value_t.counter 5], plugin := "rate" }, mixed_batch] ≠
      [mixed_batch] ∧
    ∃ e, [{ cpu_batch with values := [value_t.counter 5], plugin := "rate" }, mixed_batch] =
        e :: [mixed_batch] ∧ e.plugin = "rate" ∧ e.host = cpu_batch.host ∧
      e.plugin_instance = cpu_batch.plugin_instance ∧ e.type = cpu_batch.type ∧
      e.type_instance = cpu_batch.type_instance ∧ e.time = cpu_batch.time ∧
      e.interval = cpu_batch.interval ∧ e.values_len = cpu_batch.values_len :=
  ⟨by decide, by decide,
    rate_write_preserves_identity true counter_ds cpu_batch (some [rate_5]) [mixed_batch] _ 0
      (by decide) (by decide)⟩

/-! ## The buffering dispatcher -/

/-- A `rate_write` call in a run either leaves pending list and ledger alone
(when it is not an accepting call) or puts one entry in front of the list and
at the end of `queued`. -/
theorem run_step_write {s s1 : run_state} {alloc_ok : Bool} {ds : data_set_t}
    {vl : value_list_t} {rates : Option (List gauge_t)}
    (h : run_step s (rate_op.write alloc_ok ds vl rates) = some s1) :
    s1.forwarded = s.forwarded ∧
    (((alloc_ok && usable rates) = false ∧ s1.rate_list_head = s.rate_list_head ∧
        s1.queued = s.queued) ∨
     ((alloc_ok && usable rates) = true ∧ ∃ e, s1.rate_list_head = e :: s.rate_list_head ∧
        s1.queued = s.queued ++ [e])) := by
  unfold run_step at h
  obtain ⟨⟨st, L2⟩, hw, rfl⟩ := Option.map_eq_some'.mp h
  rcases rate_write_cases hw with ⟨h1, h2, _⟩ | ⟨h1, h2, _, r, v, _, _, h3⟩
  · subst h1
    exact ⟨rfl, Or.inl ⟨h2, rfl, by simp⟩⟩
  · refine ⟨rfl, Or.inr ⟨by simp [h1, h2], _, h3, ?_⟩⟩
    simp [h3]

theorem run_step_read (s : run_state) :
    run_step s rate_op.read =
      some { s with rate_list_head := [], forwarded := s.forwarded ++ s.rate_list_head } := by
  simp [run_step, rate_read_eq, dispatched_append, dispatched_map, dispatched]

theorem run_append (ops1 ops2 : List rate_op) :
    ∀ s, run s (ops1 ++ ops2) = (run s ops1).bind fun s1 => run s1 ops2 := by
  induction ops1 with
  | nil => intro s; rfl
  | cons op ops ih =>
    intro s
    simp only [List.cons_append, run]
    cases run_step s op with
    | none => rfl
    | some s1 => simpa using ih s1

/-- A run of calls with defined behaviour has a result. -/
theorem run_defined (ops : List rate_op) :
    ∀ s, (∀ op ∈ ops, op.defined) → ∃ s1, run s ops = some s1 := by
  induction ops with
  | nil => intro s _; exact ⟨s, rfl⟩
  | cons op ops ih =>
    intro s hdef
    have hop : op.defined := hdef op (List.mem_cons_self _ _)
    have hstep : ∃ s1, run_step s op = some s1 := by
      cases op with
      | read => exact ⟨_, run_step_read s⟩
      | write alloc_ok ds vl rates =>
        obtain ⟨res, hres⟩ := rate_write_defined alloc_ok ds vl rates s.rate_list_head hop
        simp only [run_step, hres, Option.map_some']
        exact ⟨_, rfl⟩
    obtain ⟨s1, hs1⟩ := hstep
    obtain ⟨s2, hs2⟩ := ih s1 (fun o ho => hdef o (List.mem_cons_of_mem _ ho))
    exact ⟨s2, by simp [run, hs1, hs2]⟩

/-- Ledger invariant of a run: what was forwarded plus what is pending is,
up to order, what was queued; and `queued` grows by one per accepting call. -/
theorem run_ledger (ops : List rate_op) :
    ∀ s s1, run s ops = some s1 → (s.forwarded ++ s.rate_list_head).Perm s.queued →
      (s1.forwarded ++ s1.rate_list_head).Perm s1.queued ∧
      s1.queued.length = s.queued.length + ops.countP rate_op.accepts := by
  induction ops with
  | nil =>
    intro s s1 h hp
    simp only [run, Option.some.injEq] at h
    subst h
    exact ⟨hp, by simp⟩
  | cons op ops ih =>
    intro s s1 h hp
    simp only [run] at h
    obtain ⟨s2, hstep, hrest⟩ := Option.bind_eq_some.mp h
    cases op with
    | read =>
      rw [run_step_read] at hstep
      simp only [Option.some.injEq] at hstep
      subst hstep
      obtain ⟨i1, i2⟩ := ih _ s1 hrest (by simpa using hp)
      exact ⟨i1, by simpa [rate_op.accepts] using i2⟩
    | write alloc_ok ds vl rates =>
      obtain ⟨hf, ⟨ha, hh, hq⟩ | ⟨ha, e, hh, hq⟩⟩ := run_step_write hstep
      · obtain ⟨i1, i2⟩ := ih s2 s1 hrest (by rw [hf, hh, hq]; exact hp)
        exact ⟨i1, by rw [i2, hq]; simp [rate_op.accepts, ha]⟩
      · have hp2 : (s2.forwarded ++ s2.rate_list_head).Perm s2.queued := by
          rw [hf, hh, hq]
          exact (List.perm_middle).trans ((List.Perm.cons e hp).trans
            (List.perm_append_singleton e s.queued).symm)
        obtain ⟨i1, i2⟩ := ih s2 s1 hrest hp2
        refine ⟨i1, ?_⟩
        rw [i2, hq]
        simp [rate_op.accepts, ha]
        omega

/-- Order invariant of a run of `rate_write` calls only: the pending list is
`queued` read backwards, and nothing is forwarded. -/
theorem run_writes_order (ws : List rate_op) (hw : ∀ op ∈ ws, op.is_write = true) :
    ∀ s s1, run s ws = some s1 → s.rate_list_head = s.queued.reverse →
      s1.rate_list_head = s1.queued.reverse ∧ s1.forwarded = s.forwarded := by
  induction ws with
  | nil =>
    intro s s1 h hp
    simp only [run, Option.some.injEq] at h
    subst h
    exact ⟨hp, rfl⟩
  | cons op ops ih =>
    intro s s1 h hp
    simp only [run] at h
    obtain ⟨s2, hstep, hrest⟩ := Option.bind_eq_some.mp h
    have hops : ∀ o ∈ ops, o.is_write = true := fun o ho => hw o (List.mem_cons_of_mem _ ho)
    cases op with
    | read => simpa [rate_op.is_write] using hw rate_op.read (List.mem_cons_self _ _)
    | write alloc_ok ds vl rates =>
      obtain ⟨hf, ⟨_, hh, hq⟩ | ⟨_, e, hh, hq⟩⟩ := run_step_write hstep
      · obtain ⟨i1, i2⟩ := ih hops s2 s1 hrest (by rw [hh, hq]; exact hp)
        exact ⟨i1, i2.trans hf⟩
      · obtain ⟨i1, i2⟩ := ih hops s2 s1 hrest (by rw [hh, hq, hp]; simp)
        exact ⟨i1, i2.trans hf⟩

/-- C6 (as stated, refuted): in the run of a `rate_write` for which the
history store has no rate followed by a `rate_read`, the write returns 0, so
one write returned success, and no batch is forwarded. -/
theorem forwarded_differs_from_successful_writes :
    (run run_init [rate_op.write true counter_ds cpu_batch none, rate_op.read]).map
      (fun s => (s.forwarded.length, s.write_ok)) = some (0, 1) := by
  decide

/-- C6 (amended): every run of calls with defined behaviour that starts from
the empty pending list and ends with a `rate_read` forwards, up to order,
exactly the entries that the `rate_write` calls put on the pending list, each
once, and their number is the number of `rate_write` calls whose allocations
succeeded and whose rate array is usable. -/
theorem forwarded_equals_accepted (ops : List rate_op) (hdef : ∀ op ∈ ops, op.defined) :
    ∃ s, run run_init (ops ++ [rate_op.read]) = some s ∧ s.rate_list_head = [] ∧
      s.forwarded.Perm s.queued ∧
      s.queued.length = ops.countP rate_op.accepts ∧
      s.forwarded.length = ops.countP rate_op.accepts := by
  obtain ⟨s1, hs1⟩ := run_defined ops run_init hdef
  obtain ⟨i1, i2⟩ := run_ledger ops run_init s1 hs1 (by simp [run_init, rate_list_head_init])
  refine ⟨{ s1 with rate_list_head := [], forwarded := s1.forwarded ++ s1.rate_list_head }, ?_,
    rfl, i1, ?_, ?_⟩
  · rw [run_append, hs1]
    simp [run, run_step_read]
  · simpa [run_init] using i2
  · have := i1.length_eq
    simp only at this ⊢
    rw [this, i2]
    simp [run_init]

/-- C6 (amended), at `sample_ops`: two of its three writes are accepting, and
two batches are forwarded once the run ends with a read. -/
theorem forwarded_equals_accepted_witness :
    (∀ op ∈ sample_ops, op.defined) ∧
    ∃ s, run run_init (sample_ops ++ [rate_op.read]) = some s ∧ s.rate_list_head = [] ∧
      s.forwarded.Perm s.queued ∧
      s.queued.length = sample_ops.countP rate_op.accepts ∧
      s.forwarded.length = sample_ops.countP rate_op.accepts :=
  ⟨by decide, forwarded_equals_accepted sample_ops (by decide)⟩

/-- C7: on every pending list `L`, `rate_read` returns 0, dispatches exactly
the batches of `L`, each once, from the head to the tail, and leaves the
pending list empty (on the empty list nothing is dispatched); and after a run
`ws` of `rate_write` calls from the empty list, a `rate_read` forwards the
queued entries in reverse arrival order, the most recent first. -/
theorem rate_read_drains (L : List value_list_t) (ws : List rate_op)
    (hw : ∀ op ∈ ws, op.is_write = true) (hdef : ∀ op ∈ ws, op.defined) :
    (rate_read L).status = 0 ∧ dispatched (rate_read L).events = L ∧
    (rate_read L).rate_list_head = [] ∧
    ∃ s, run run_init (ws ++ [rate_op.read]) = some s ∧ s.forwarded = s.queued.reverse ∧
      s.rate_list_head = [] := by
  refine ⟨by rw [rate_read_eq], ?_, by rw [rate_read_eq], ?_⟩
  · rw [rate_read_eq]
    simp [dispatched_append, dispatched_map, dispatched]
  · obtain ⟨s1, hs1⟩ := run_defined ws run_init hdef
    obtain ⟨i1, i2⟩ := run_writes_order ws hw run_init s1 hs1
      (by simp [run_init, rate_list_head_init])
    refine ⟨{ s1 with rate_list_head := [], forwarded := s1.forwarded ++ s1.rate_list_head }, ?_,
      ?_, rfl⟩
    · rw [run_append, hs1]
      simp [run, run_step_read]
    · simp only
      rw [i2, i1]
      simp [run_init]

/-- C7, at a two-entry pending list and at `sample_writes`, whose two
accepted batches come out newest first. -/
theorem rate_read_drains_witness :
    (∀ op ∈ sample_writes, op.is_write = true) ∧ (∀ op ∈ sample_writes, op.defined) ∧
    (rate_read [cpu_batch, mixed_batch]).status = 0 ∧
    dispatched (rate_read [cpu_batch, mixed_batch]).events = [cpu_batch, mixed_batch] ∧
    (rate_read [cpu_batch, mixed_batch]).rate_list_head = [] ∧
    ∃ s, run run_init (sample_writes ++ [rate_op.read]) = some s ∧
      s.forwarded = s.queued.reverse ∧ s.rate_list_head = [] :=
  ⟨by decide, by decide,
    rate_read_drains [cpu_batch, mixed_batch] sample_writes (by decide) (by decide)⟩

/-- C8 (as stated, refuted): `rate_read` in the initial state, before any
`rate_write`, returns 0, and that is the very status it returns on the empty
list left behind by an accepted write and a read. -/
theorem rate_read_initial_returns_success :
    (rate_read rate_list_head_init).status = 0 ∧
    (run run_init [rate_op.write true counter_ds cpu_batch (some [rate_5]), rate_op.read]).map
      (fun s => (s.rate_list_head, (rate_read s.rate_list_head).status)) = some ([], 0) := by
  decide

/-- C8 (amended): `rate_read` in the initial state returns the success status
0 after one lock and one unlock, dispatching nothing and leaving the list
empty; `rate_read` returns that same status on every pending list, and never
returns the status -1. -/
theorem rate_read_initial_is_idle (L : List value_list_t) :
    rate_read rate_list_head_init =
      { status := 0, events := [event.lock, event.unlock], rate_list_head := [] } ∧
    (rate_read L).status = (rate_read rate_list_head_init).status ∧
    (rate_read L).status ≠ -1 := by
  have h : (rate_read L).status = 0 := by rw [rate_read_eq]
  refine ⟨rfl, ?_, ?_⟩
  · rw [h]; rfl
  · rw [h]; decide

/-! ## The inline invoker -/

/-- With no null argument and a filled handle slot, `trate_invoke` is the
`rate_write` loop run on `vl->values`, with the status set by the loop. -/
theorem trate_invoke_filled (ds : data_set_t) (vl : value_list_t) (data : trate_data_t)
    (rates : Option (List gauge_t)) :
    trate_invoke (some ds) (some vl) (some (some data)) rates =
      match rates with
      | none => some (FC_TARGET_STOP, some vl)
      | some r =>
        match r.head? with
        | none => none
        | some r0 =>
          if isnan r0 = false then
            (rate_write_loop ds r ds.ds_num 0 vl.values).map fun v =>
              (if ds.ds_num = 0 then FC_TARGET_CONTINUE else status_after ds FC_TARGET_CONTINUE,
                some { vl with values := v })
          else some (FC_TARGET_STOP, some vl) := by
  unfold trate_invoke
  cases rates with
  | none => rfl
  | some r =>
    simp only
    cases r.head? with
    | none => rfl
    | some r0 =>
      simp only
      by_cases hn : isnan r0 = false
      · simp only [hn, if_true, trate_invoke_loop_eq]
        cases rate_write_loop ds r ds.ds_num 0 vl.values <;> rfl
      · rw [if_neg hn, if_neg hn]

/-- With no null argument and a filled handle slot, the status of
`trate_invoke` is one of the two chain signals. -/
theorem trate_invoke_filled_status {ds : data_set_t} {vl : value_list_t} {data : trate_data_t}
    {rates : Option (List gauge_t)} {st : Int} {b : Option value_list_t}
    (h : trate_invoke (some ds) (some vl) (some (some data)) rates = some (st, b)) :
    st = FC_TARGET_CONTINUE ∨ st = FC_TARGET_STOP := by
  rw [trate_invoke_filled] at h
  cases rates with
  | none => simp at h; exact Or.inr h.1.symm
  | some r =>
    simp only at h
    cases hr : r.head? with
    | none => simp [hr] at h
    | some r0 =>
      simp only [hr] at h
      by_cases hn : isnan r0 = false
      · rw [if_pos hn] at h
        obtain ⟨v, _, hv⟩ := Option.map_eq_some'.mp h
        simp only [Prod.mk.injEq] at hv
        rw [← hv.1]
        by_cases h0 : ds.ds_num = 0
        · simp [h0]
        · simp only [h0, if_false, status_after]
          cases ds.ds.head? with
          | none => simp
          | some d => by_cases hs : supported d.type = true <;> simp [hs]
      · rw [if_neg hn] at h
        simp at h
        exact Or.inr h.1.symm

/-- C9: `trate_invoke` returns -EINVAL when `ds`, `vl`, `user_data` or the
handle in the slot is null; otherwise, on a history-store result that obeys
the contract, it returns FC_TARGET_CONTINUE exactly when the rate array is
usable and the data-set kind `ds->ds->type` is one of gauge, counter, derive,
absolute, and FC_TARGET_STOP in every other case. -/
theorem trate_invoke_status (ds : Option data_set_t) (vl : Option value_list_t)
    (user_data : handle_slot) (rates : Option (List gauge_t))
    (hdef : ∀ d v data, ds = some d → vl = some v → user_data = some (some data) →
      defined_input d v rates) :
    ∃ st b, trate_invoke ds vl user_data rates = some (st, b) ∧
      ((ds = none ∨ vl = none ∨ user_data = none ∨ user_data = some none) → st = -EINVAL) ∧
      (¬ (ds = none ∨ vl = none ∨ user_data = none ∨ user_data = some none) →
        (st = FC_TARGET_CONTINUE ↔
          usable rates = true ∧ ∃ d t, ds = some d ∧ kind d = some t ∧ supported t = true) ∧
        (st ≠ FC_TARGET_CONTINUE → st = FC_TARGET_STOP)) := by
  cases ds with
  | none => exact ⟨-EINVAL, vl, by simp [trate_invoke], fun _ => rfl, fun h => absurd (Or.inl rfl) h⟩
  | some d =>
    cases vl with
    | none =>
      exact ⟨-EINVAL, none, by simp [trate_invoke], fun _ => rfl,
        fun h => absurd (Or.inr (Or.inl rfl)) h⟩
    | some v =>
      cases user_data with
      | none =>
        exact ⟨-EINVAL, some v, by simp [trate_invoke], fun _ => rfl,
          fun h => absurd (Or.inr (Or.inr (Or.inl rfl))) h⟩
      | some slot =>
        cases slot with
        | none =>
          exact ⟨-EINVAL, some v, by simp [trate_invoke], fun _ => rfl,
            fun h => absurd (Or.inr (Or.inr (Or.inr rfl))) h⟩
        | some data =>
          have hdef := hdef d v data rfl rfl rfl
          have hnn : ¬ ((some d : Option data_set_t) = none ∨ (some v : Option value_list_t) = none ∨
              (some (some data) : handle_slot) = none ∨
              (some (some data) : handle_slot) = some none) := by simp
          rw [trate_invoke_filled]
          cases rates with
          | none =>
            refine ⟨FC_TARGET_STOP, some v, rfl, fun h => absurd h hnn, fun _ => ⟨?_, fun _ => rfl⟩⟩
            simp [usable, FC_TARGET_STOP, FC_TARGET_CONTINUE]
          | some r =>
            cases r with
            | nil => simp [defined_input] at hdef
            | cons r0 rest =>
              simp only [List.head?_cons]
              by_cases hn : isnan r0 = false
              · rw [if_pos hn]
                have hu : usable (some (r0 :: rest)) = true := by simp [usable, hn]
                obtain ⟨h1, h2, h3, h4, h5, h6⟩ := hdef.2 hu
                cases hds : d.ds.head? with
                | none =>
                  have : d.ds = [] := by simpa using hds
                  rw [this] at h2
                  simp at h2
                  omega
                | some d0 =>
                  obtain ⟨v1, hv1⟩ := rate_write_loop_defined hds (h6 d0 (by simp [hds]))
                    d.ds_num 0 v.values (by omega) (by omega)
                  have h0 : d.ds_num ≠ 0 := by omega
                  rw [hv1]
                  simp only [Option.map_some', h0, if_false, status_after, hds]
                  refine ⟨_, _, rfl, fun h => absurd h hnn, fun _ => ?_⟩
                  by_cases hs : supported d0.type = true
                  · rw [if_pos hs]
                    exact ⟨⟨fun _ => ⟨hu, d, d0.type, rfl, by simp [kind, hds], hs⟩, fun _ => rfl⟩,
                      fun h => absurd rfl h⟩
                  · rw [if_neg hs]
                    refine ⟨⟨fun h => by simp [FC_TARGET_STOP, FC_TARGET_CONTINUE] at h, ?_⟩,
                      fun _ => rfl⟩
                    rintro ⟨_, d1, t, hd1, hk, ht⟩
                    simp only [Option.some.injEq] at hd1
                    subst hd1
                    simp only [kind, hds, Option.map_some', Option.some.injEq] at hk
                    rw [← hk] at ht
                    exact absurd ht hs
              · rw [if_neg hn]
                refine ⟨FC_TARGET_STOP, some v, rfl, fun h => absurd h hnn,
                  fun _ => ⟨?_, fun _ => rfl⟩⟩
                simp at hn
                simp [usable, hn, FC_TARGET_STOP, FC_TARGET_CONTINUE]

/-- C9, at the one-slot counter series with rate 5.0 and a filled handle
slot, where the status is FC_TARGET_CONTINUE. -/
theorem trate_invoke_status_witness :
    (∀ d v data, some counter_ds = some d → some cpu_batch = some v →
      (some (some {}) : handle_slot) = some (some data) → defined_input d v (some [rate_5])) ∧
    ∃ st b, trate_invoke (some counter_ds) (some cpu_batch) (some (some {})) (some [rate_5]) =
        some (st, b) ∧
      ((some counter_ds = none ∨ some cpu_batch = none ∨ (some (some {}) : handle_slot) = none ∨
          (some (some {}) : handle_slot) = some none) → st = -EINVAL) ∧
      (¬ (some counter_ds = none ∨ some cpu_batch = none ∨
          (some (some {}) : handle_slot) = none ∨
          (some (some {}) : handle_slot) = some none) →
        (st = FC_TARGET_CONTINUE ↔
          usable (some [rate_5]) = true ∧
            ∃ d t, some counter_ds = some d ∧ kind d = some t ∧ supported t = true) ∧
        (st ≠ FC_TARGET_CONTINUE → st = FC_TARGET_STOP)) :=
  have hdef : ∀ d v data, some counter_ds = some d → some cpu_batch = some v →
      (some (some {}) : handle_slot) = some (some data) → defined_input d v (some [rate_5]) := by
    intro d v data hd hv _
    cases hd
    cases hv
    decide
  ⟨hdef, trate_invoke_status (some counter_ds) (some cpu_batch) (some (some {})) (some [rate_5]) hdef⟩

/-- C10 (as stated, refuted): after `trate_create` filled the handle slot and
`trate_destroy` was called on it, the slot still holds the handle, and
`trate_invoke` on the one-slot counter series with rate 5.0 returns
FC_TARGET_CONTINUE, which is not -EINVAL, and rewrites the batch. -/
theorem invoke_after_destroy_runs :
    trate_create true (some none) = some (0, some (some {})) ∧
    trate_destroy (some (some {})) = (0, some (some {})) ∧
    trate_invoke (some counter_ds) (some cpu_batch) (trate_destroy (some (some {}))).2
        (some [rate_5]) =
      some (FC_TARGET_CONTINUE, some { cpu_batch with values := [value_t.counter 5] }) ∧
    FC_TARGET_CONTINUE ≠ -EINVAL ∧
    { cpu_batch with values := [value_t.counter 5] } ≠ cpu_batch := by
  decide

/-- C10 (amended): `trate_destroy` returns 0 and leaves a handle slot that
`trate_create` filled as it is, still holding the handle; a following
`trate_invoke` with non-null `ds` and `vl` gives exactly the result it gives
before the destroy, and its status is FC_TARGET_CONTINUE or FC_TARGET_STOP,
never -EINVAL. -/
theorem destroy_keeps_handle (malloc_ok : Bool) (slot slot1 : handle_slot)
    (ds : data_set_t) (vl : value_list_t) (rates : Option (List gauge_t))
    (hc : trate_create malloc_ok slot = some (0, slot1)) :
    trate_destroy slot1 = (0, slot1) ∧ slot1 = some (some {}) ∧
    trate_invoke (some ds) (some vl) (trate_destroy slot1).2 rates =
      trate_invoke (some ds) (some vl) slot1 rates ∧
    ∀ st b, trate_invoke (some ds) (some vl) (trate_destroy slot1).2 rates = some (st, b) →
      (st = FC_TARGET_CONTINUE ∨ st = FC_TARGET_STOP) ∧ st ≠ -EINVAL := by
  have hs : slot1 = some (some {}) := by
    unfold trate_create at hc
    cases malloc_ok with
    | false => simp [ENOMEM] at hc
    | true =>
      cases slot with
      | none => simp at hc
      | some x => simpa using hc.symm
  subst hs
  refine ⟨rfl, rfl, rfl, ?_⟩
  intro st b h
  have h2 := trate_invoke_filled_status h
  refine ⟨h2, ?_⟩
  rcases h2 with rfl | rfl <;> decide

/-- C10 (amended), at a create on an empty slot followed by a destroy and an
invoke on the one-slot counter series with rate 5.0. -/
theorem destroy_keeps_handle_witness :
    trate_create true (some none) = some (0, some (some {})) ∧
    trate_destroy (some (some {})) = (0, some (some {})) ∧
    (some (some {}) : handle_slot) = some (some {}) ∧
    trate_invoke (some counter_ds) (some cpu_batch) (trate_destroy (some (some {}))).2
        (some [rate_5]) =
      trate_invoke (some counter_ds) (some cpu_batch) (some (some {})) (some [rate_5]) ∧
    ∀ st b, trate_invoke (some counter_ds) (some cpu_batch) (trate_destroy (some (some {}))).2
        (some [rate_5]) = some (st, b) →
      (st = FC_TARGET_CONTINUE ∨ st = FC_TARGET_STOP) ∧ st ≠ -EINVAL :=
  ⟨by decide,
    destroy_keeps_handle true (some none) (some (some {})) counter_ds cpu_batch (some [rate_5])
      (by decide)⟩

/-! ## Frame of the inline invoker -/

/-- The `rate_write` loop keeps the length of the array and every slot
outside `i .. i + n - 1`, whatever the data set. -/
theorem rate_write_loop_frame {ds : data_set_t} {r : List gauge_t} {n i : Nat}
    {v v1 : List value_t} (h : rate_write_loop ds r n i v = some v1) :
    v1.length = v.length ∧ ∀ j, (j < i ∨ i + n ≤ j) → v1[j]? = v[j]? := by
  cases hd : ds.ds.head? with
  | some d0 =>
    obtain ⟨l1, l2, _, _⟩ := rate_write_loop_spec hd n i v v1 h
    exact ⟨l1, l2⟩
  | none =>
    cases n with
    | zero =>
      simp only [rate_write_loop, Option.some.injEq] at h
      subst h
      exact ⟨rfl, fun _ _ => rfl⟩
    | succ m => simp [rate_write_loop, rate_write_body, hd] at h

/-- Frame of `trate_invoke` when no argument is null and the handle slot is
filled. -/
theorem trate_invoke_filled_frame {ds : data_set_t} {vl : value_list_t} {data : trate_data_t}
    {rates : Option (List gauge_t)} {st : Int} {b : Option value_list_t}
    (h : trate_invoke (some ds) (some vl) (some (some data)) rates = some (st, b)) :
    ∃ v, b = some { vl with values := v } ∧ v.length = vl.values.length ∧
      (∀ j, ds.ds_num ≤ j → v[j]? = vl.values[j]?) ∧
      (st ≠ FC_TARGET_CONTINUE → v = vl.values) := by
  rw [trate_invoke_filled] at h
  cases rates with
  | none =>
    simp only [Option.some.injEq, Prod.mk.injEq] at h
    exact ⟨vl.values, h.2.symm, rfl, fun _ _ => rfl, fun _ => rfl⟩
  | some r =>
    simp only at h
    cases hr : r.head? with
    | none => simp [hr] at h
    | some r0 =>
      simp only [hr] at h
      by_cases hn : isnan r0 = false
      · rw [if_pos hn] at h
        obtain ⟨v, hv, he⟩ := Option.map_eq_some'.mp h
        simp only [Prod.mk.injEq] at he
        obtain ⟨f1, f2⟩ := rate_write_loop_frame hv
        refine ⟨v, he.2.symm, f1, fun j hj => f2 j (Or.inr (by omega)), ?_⟩
        intro hst
        rw [← he.1] at hst
        by_cases h0 : ds.ds_num = 0
        · simp [h0] at hst
        · simp only [h0, if_false, status_after] at hst
          cases hd : ds.ds.head? with
          | none => simp [hd] at hst
          | some d0 =>
            simp only [hd] at hst
            by_cases hs : supported d0.type = true
            · simp [hs] at hst
            · obtain ⟨_, _, _, l4⟩ := rate_write_loop_spec hd ds.ds_num 0 vl.values v hv
              exact l4 (by simpa using hs)
      · rw [if_neg hn] at h
        simp only [Option.some.injEq, Prod.mk.injEq] at h
        exact ⟨vl.values, h.2.symm, rfl, fun _ _ => rfl, fun _ => rfl⟩

/-- C11: whenever `trate_invoke` returns on a batch `vl`, the batch after the
call has the host, plugin, plugin_instance, type, type_instance, time and
values_len of `vl` (and its interval and metadata), as many value slots as
before, every slot with index `ds_num` or more unchanged, and, when the
returned status is not FC_TARGET_CONTINUE, every slot unchanged. -/
theorem trate_invoke_frame (ds : Option data_set_t) (vl : value_list_t)
    (user_data : handle_slot) (rates : Option (List gauge_t)) (st : Int)
    (b : Option value_list_t)
    (h : trate_invoke ds (some vl) user_data rates = some (st, b)) :
    ∃ v1, b = some v1 ∧ v1.host = vl.host ∧ v1.plugin = vl.plugin ∧
      v1.plugin_instance = vl.plugin_instance ∧ v1.type = vl.type ∧
      v1.type_instance = vl.type_instance ∧ v1.time = vl.time ∧
      v1.values_len = vl.values_len ∧ v1.interval = vl.interval ∧ v1.meta = vl.meta ∧
      v1.values.length = vl.values.length ∧
      (∀ d, ds = some d → ∀ j, d.ds_num ≤ j → v1.values[j]? = vl.values[j]?) ∧
      (st ≠ FC_TARGET_CONTINUE → v1 = vl) := by
  have hsame : ∀ {x : Int}, some (x, some vl) = some (st, b) →
      ∃ v1, b = some v1 ∧ v1.host = vl.host ∧ v1.plugin = vl.plugin ∧
        v1.plugin_instance = vl.plugin_instance ∧ v1.type = vl.type ∧
        v1.type_instance = vl.type_instance ∧ v1.time = vl.time ∧
        v1.values_len = vl.values_len ∧ v1.interval = vl.interval ∧ v1.meta = vl.meta ∧
        v1.values.length = vl.values.length ∧
        (∀ d, ds = some d → ∀ j, d.ds_num ≤ j → v1.values[j]? = vl.values[j]?) ∧
        (st ≠ FC_TARGET_CONTINUE → v1 = vl) := by
    intro x hx
    simp only [Option.some.injEq, Prod.mk.injEq] at hx
    exact ⟨vl, hx.2.symm, rfl, rfl, rfl, rfl, rfl, rfl, rfl, rfl, rfl, rfl,
      fun _ _ _ _ => rfl, fun _ => rfl⟩
  cases ds with
  | none => exact hsame (by simpa [trate_invoke] using h)
  | some d =>
    cases user_data with
    | none => exact hsame (by simpa [trate_invoke] using h)
    | some slot =>
      cases slot with
      | none => exact hsame (by simpa [trate_invoke] using h)
      | some data =>
        obtain ⟨v, hb, f1, f2, f3⟩ := trate_invoke_filled_frame h
        refine ⟨_, hb, rfl, rfl, rfl, rfl, rfl, rfl, rfl, rfl, rfl, f1, ?_, ?_⟩
        · intro d1 hd1 j hj
          simp only [Option.some.injEq] at hd1
          subst hd1
          exact f2 j hj
        · intro hst
          rw [f3 hst]

/-- C11, at the one-slot counter series with rate 5.0 and a filled handle
slot: only slot 0 is rewritten. -/
theorem trate_invoke_frame_witness :
    trate_invoke (some counter_ds) (some cpu_batch) (some (some {})) (some [rate_5]) =
      some (FC_TARGET_CONTINUE, some { cpu_batch with values := [value_t.counter 5] }) ∧
    ∃ v1, some { cpu_batch with values := [value_t.counter 5] } = some v1 ∧
      v1.host = cpu_batch.host ∧ v1.plugin = cpu_batch.plugin ∧
      v1.plugin_instance = cpu_batch.plugin_instance ∧ v1.type = cpu_batch.type ∧
      v1.type_instance = cpu_batch.type_instance ∧ v1.time = cpu_batch.time ∧
      v1.values_len = cpu_batch.values_len ∧ v1.interval = cpu_batch.interval ∧
      v1.meta = cpu_batch.meta ∧ v1.values.length = cpu_batch.values.length ∧
      (∀ d, some counter_ds = some d → ∀ j, d.ds_num ≤ j →
        v1.values[j]? = cpu_batch.values[j]?) ∧
      (FC_TARGET_CONTINUE ≠ FC_TARGET_CONTINUE → v1 = cpu_batch) :=
  ⟨by decide,
    trate_invoke_frame (some counter_ds) cpu_batch (some (some {})) (some [rate_5])
      FC_TARGET_CONTINUE _ (by decide)⟩

/-! ## Locking and configuration of the rate plugin -/

/-- C12 (as stated, refuted): in the events of `rate_read` on a pending list
of one entry, the dispatch of that entry comes after the lock and before the
unlock, so it occurs while `rate_list_lock` is held. -/
theorem dispatch_occurs_under_lock :
    (rate_read [cpu_batch]).events =
      [event.lock, event.dispatch cpu_batch, event.unlock] ∧
    lock_held_at_dispatch false (rate_read [cpu_batch]).events = [true] := by
  decide

theorem lock_held_while_dispatching (L : List value_list_t) :
    lock_held_at_dispatch true (L.map event.dispatch ++ [event.unlock]) =
      List.replicate L.length true := by
  induction L with
  | nil => rfl
  | cons x xs ih => simp [lock_held_at_dispatch, List.replicate_succ, ih]

/-- C12 (amended): the events of `rate_read` on any pending list are one lock,
then the dispatch of every entry from the head on, then one unlock; every
dispatch occurs while `rate_list_lock` is held, so the lock is held for the
whole walk of the list. -/
theorem rate_read_dispatches_under_lock (L : List value_list_t) :
    (rate_read L).events = event.lock :: (L.map event.dispatch ++ [event.unlock]) ∧
    lock_held_at_dispatch false (rate_read L).events = List.replicate L.length true := by
  have hev : (rate_read L).events = event.lock :: (L.map event.dispatch ++ [event.unlock]) := by
    rw [rate_read_eq]; simp
  refine ⟨hev, ?_⟩
  rw [hev]
  simp only [lock_held_at_dispatch]
  exact lock_held_while_dispatching L

/-- C13 (as stated, refuted): for the key "Interval", which is not in
`config_keys`, `rate_config` returns 0. -/
theorem rate_config_accepts_unknown_key :
    "Interval" ∉ config_keys ∧ (rate_config "Interval" "10").1 = 0 := by
  decide

/-- C13 (amended): `config_keys` has no entry, so no key is recognized, and
`rate_config` returns 0 for every key and every value. -/
theorem rate_config_returns_zero (key : String) (value : String) :
    config_keys_num = 0 ∧ key ∉ config_keys ∧ (rate_config key value).1 = 0 := by
  refine ⟨rfl, ?_, rfl⟩
  simp [config_keys]

/-! ## Slot indexing -/

/-- The first `m` iterations of the `rate_write` loop, then the others. -/
theorem rate_write_loop_add (ds : data_set_t) (r : List gauge_t) (k : Nat) :
    ∀ (m i : Nat) (v : List value_t),
      rate_write_loop ds r (m + k) i v =
        (rate_write_loop ds r m i v).bind fun v0 => rate_write_loop ds r k (i + m) v0
  | 0, i, v => by simp [rate_write_loop]
  | m + 1, i, v => by
    rw [show m + 1 + k = (m + k) + 1 by omega]
    simp only [rate_write_loop]
    cases rate_write_body ds r v i with
    | none => rfl
    | some v2 =>
      simp only [Option.some_bind]
      rw [rate_write_loop_add ds r k m (i + 1) v2, show i + 1 + m = i + (m + 1) by omega]

/-- When the array has fewer slots than the loop has iterations, the
iterations inside the array are defined and the next one stores past the end
of the array, which makes the whole loop undefined. -/
theorem rate_write_loop_overrun {ds : data_set_t} {r : List gauge_t} {d0 : data_source_t}
    (hd : ds.ds.head? = some d0) (hs : supported d0.type = true)
    (hc : ∀ g ∈ r, convertible d0.type g = true) (n : Nat) (v : List value_t)
    (hlen : v.length < n) (hr : n ≤ r.length) :
    ∃ v0 g x, rate_write_loop ds r v.length 0 v = some v0 ∧ v0.length = v.length ∧
      r[v.length]? = some g ∧ spec_slot d0.type g = some x ∧ store v0 v.length x = none ∧
      rate_write_loop ds r n 0 v = none := by
  obtain ⟨v0, hv0⟩ := rate_write_loop_defined hd hc v.length 0 v (by omega) (by omega)
  obtain ⟨hl, _⟩ := rate_write_loop_frame hv0
  have hi : v.length < r.length := by omega
  obtain ⟨x, hx⟩ := spec_slot_defined hs (hc r[v.length] (List.getElem_mem hi))
  have hst : store v0 v.length x = none := by simp [store, hl]
  refine ⟨v0, r[v.length], x, hv0, hl, List.getElem?_eq_getElem hi, hx, hst, ?_⟩
  obtain ⟨k, hk⟩ : ∃ k, n = v.length + (k + 1) := ⟨n - v.length - 1, by omega⟩
  rw [hk, rate_write_loop_add, hv0]
  simp only [Option.some_bind, rate_write_loop, Nat.zero_add]
  rw [rate_write_body_eq, hd]
  simp [hs, List.getElem?_eq_getElem hi, hx, hst]

end Collectd
